import Mathlib

/-!
Verification development for the FreeWorld location-resolution engine.

The Python sources (`geocode_nuforc.py` and the `tools/` scripts) are shallowly
embedded here.  Conventions used throughout:

* Python `str` is modelled by `String` / `List Char`; `str.strip`, `str.lower`,
  `str.upper` and the regex classes `\s`, `[a-z0-9]` are modelled by their
  ASCII restrictions (`pystrip`, `pylower`, `pyupper`, `isPySpace`, ...); the
  genuinely Unicode-dependent library calls (`unicodedata.normalize('NFKD',.)`,
  `unicodedata.combining`, and the full-Unicode `str.strip`/`str.lower` where
  they are applied to raw input) are taken as explicit function parameters,
  bundled in the structure `Uni`, constrained only where a proof needs a real
  fact about them (`Uni.Sane`).
* Python dicts are modelled either as association lists (`dinsert`,
  `dsetdefault`, `dget` reproduce insertion-order and first-key semantics,
  which matter because the code iterates over `dict.items()`), or as plain
  function maps `α → Option β` where only `get` is ever used.
* The external gazetteer (geonamescache) is data, not code: city and country
  records are parameters (`List City`, `List CountryRec`) and the index
  construction loops of the source are embedded as folds over those lists.
* Fallible code is modelled with `Except`: the final branch of `_find_coords`
  subscripts `None` when a country has no gazetteer city, which is modelled as
  `Except.error ()`.
* `int` population values are `Nat` (the source coerces with `int(... or 0)`),
  and the float coordinates of gazetteer records are modelled as `Int` since
  the engine only ever converts them with `str(...)` and compares the results
  with the empty string.
-/

/-! ### ASCII character classes used by the Python code -/

/-- Characters matched by Python's `\s` (and stripped by `str.strip`) within
the ASCII range: tab .. carriage return, the file/group/record/unit
separators, and space. -/
def isPySpace (c : Char) : Bool :=
  decide (c.toNat = 32) || (decide (9 ≤ c.toNat) && decide (c.toNat ≤ 13)) ||
    (decide (28 ≤ c.toNat) && decide (c.toNat ≤ 31))

/-- Characters in the regex class `[a-z0-9]`. -/
def isLowAlnum (c : Char) : Bool :=
  (decide (97 ≤ c.toNat) && decide (c.toNat ≤ 122)) ||
    (decide (48 ≤ c.toNat) && decide (c.toNat ≤ 57))

/-- Characters that can occur in a fully-normalized string: `[a-z0-9 ]`. -/
def isCanon (c : Char) : Bool := isLowAlnum c || decide (c.toNat = 32)

/-- ASCII restriction of Python's `str.lower` (charwise). -/
def lowerAscii (c : Char) : Char :=
  if 65 ≤ c.toNat ∧ c.toNat ≤ 90 then Char.ofNat (c.toNat + 32) else c

/-- ASCII restriction of Python's `str.upper` (charwise). -/
def upperAscii (c : Char) : Char :=
  if 97 ≤ c.toNat ∧ c.toNat ≤ 122 then Char.ofNat (c.toNat - 32) else c

/-! ### Strip / collapse primitives -/

/-- Drop a trailing run of `p`-characters (the right half of `str.strip`). -/
def dropTrailWith (p : Char → Bool) (l : List Char) : List Char :=
  (l.reverse.dropWhile p).reverse

/-- Model of Python `str.strip` restricted to an explicit character class:
drop the leading and the trailing run of `p`-characters. -/
def stripLWith (p : Char → Bool) (l : List Char) : List Char :=
  dropTrailWith p (l.dropWhile p)

/-- Model of `re.sub(p+, ' ', s)`: every maximal run of `p`-characters is
replaced by a single space.  Used with `p := isPySpace` for `\s+` and with
`p := fun c => !(isCanon c)` for `[^a-z0-9 ]+`. -/
def collapseWith (p : Char → Bool) : List Char → List Char
  | [] => []
  | c :: rest =>
    match rest with
    | [] => if p c then [' '] else [c]
    | c2 :: _ =>
      if p c && p c2 then collapseWith p rest
      else (if p c then ' ' else c) :: collapseWith p rest

/-- String-level Python `strip` (ASCII whitespace). -/
def pystrip (s : String) : String := ⟨stripLWith isPySpace s.data⟩

/-- String-level Python `lower` (ASCII). -/
def pylower (s : String) : String := ⟨s.data.map lowerAscii⟩

/-- String-level Python `upper` (ASCII). -/
def pyupper (s : String) : String := ⟨s.data.map upperAscii⟩

/-! ### The Unicode-dependent collaborators, as parameters -/

/-- Bundle of the Unicode library functions the normalizers call and that are
not reimplemented here: `unicodedata.normalize('NFKD', .)`, the full-Unicode
`str.strip` and `str.lower` (used on raw input by
`tools/auto_fill_missing_city_keys.normalize`), and `unicodedata.combining`
as a junk-mark predicate. -/
structure Uni where
  nfkd : List Char → List Char
  pyStrip : List Char → List Char
  pyLower : List Char → List Char
  combining : Char → Bool

/-- The facts about the Unicode collaborators that the idempotence proof
needs: each of them is inert on strings made of `[a-z0-9 ]` characters
(NFKD decomposition fixes ASCII, lowercase ASCII is already lower, ASCII
alphanumerics and the space carry no combining mark, and full-Unicode strip
agrees with ASCII strip there). -/
structure Uni.Sane (u : Uni) : Prop where
  nfkd_canon : ∀ l : List Char, (∀ c ∈ l, isCanon c = true) → u.nfkd l = l
  strip_canon : ∀ l : List Char, (∀ c ∈ l, isCanon c = true) →
    u.pyStrip l = stripLWith isPySpace l
  lower_canon : ∀ l : List Char, (∀ c ∈ l, isCanon c = true) → u.pyLower l = l
  combining_canon : ∀ c : Char, isCanon c = true → u.combining c = false

/-- Instantiation of the Unicode collaborators by their ASCII restrictions,
used by the concrete witnesses. -/
def asciiUni : Uni :=
  { nfkd := fun l => l
    pyStrip := fun l => stripLWith isPySpace l
    pyLower := fun l => l.map lowerAscii
    combining := fun _ => false }

/-! ### The two normalizers -/

/-- Embedding of `geocode_nuforc._normalize`:
NFKD decomposition, `encode('ascii','ignore')`, `lower()`,
`re.sub(r"[^a-z0-9\s]", '', .)`, `re.sub(r"\s+", ' ', .)`, `strip()`.
Only the NFKD step is a parameter; every later stage acts on ASCII text,
where the model is exact. -/
def normalizeG (nfkd : List Char → List Char) (s : String) : String :=
  if s = "" then ""
  else
    ⟨stripLWith isPySpace (collapseWith isPySpace
      ((((nfkd s.data).filter (fun c => decide (c.toNat < 128))).map lowerAscii).filter
        (fun c => isLowAlnum c || isPySpace c)))⟩

/-- Embedding of `tools/auto_fill_missing_city_keys.normalize`:
`strip().lower()`, NFKD, removal of combining marks,
`re.sub(r"[^a-z0-9 ]+", ' ', .)`, `re.sub(r"\s+", ' ', .)`, `strip()`.
The first strip/lower act on raw Unicode input and are parameters; the final
strip acts on `[a-z0-9 ]` text, where the ASCII model is exact. -/
def normalizeA (u : Uni) (s : String) : String :=
  if s = "" then ""
  else
    ⟨stripLWith isPySpace (collapseWith isPySpace
      (collapseWith (fun c => !isCanon c)
        ((u.nfkd (u.pyLower (u.pyStrip s.data))).filter (fun c => !u.combining c))))⟩

/-! ### Data model: gazetteer records and dataset rows -/

/-- A gazetteer city record, as consumed from geonamescache:
`name`, `countrycode`, `admin1code` (defaulted to `''` by the source's
`c.get('admin1code','')`), coordinates, and the population already coerced
to a number by `int(c.get('population') or 0)`. -/
structure City where
  name : String
  countrycode : String
  admin1code : String
  latitude : Int
  longitude : Int
  population : Nat
deriving DecidableEq, BEq

/-- A geonamescache country record: ISO alpha-2 code (the dict key),
official name, and alpha-3 code (`.get('iso3','')`). -/
structure CountryRec where
  code : String
  name : String
  iso3 : String
deriving DecidableEq, BEq

/-- A dataset row, restricted to the five fields the engine reads and writes
(`column-city`, `column-state`, `column-country`, `lat`, `lon`); all other
CSV columns pass through every loop untouched.  A missing field (`None`) is
the empty string, matching the source's `(row.get(k) or '')`. -/
structure Row where
  city : String
  state : String
  country : String
  lat : String
  lon : String
deriving DecidableEq, BEq

/-! ### Python dicts as association lists

The gazetteer indexes are Python dicts that the engine also iterates over
(`_city_index_norm.items()`, `.keys()`), so insertion order is observable.
An association list with these three operations reproduces dict behaviour:
assignment keeps the position of an existing key, `setdefault` never
overwrites, and lookup finds the unique stored key. -/

/-- Dict assignment `d[k] = v`. -/
def dinsert {α β : Type} [BEq α] (k : α) (v : β) : List (α × β) → List (α × β)
  | [] => [(k, v)]
  | (k', v') :: rest =>
    if k' == k then (k', v) :: rest else (k', v') :: dinsert k v rest

/-- Dict `d.setdefault(k, v)` (restricted to its effect on the table). -/
def dsetdefault {α β : Type} [BEq α] (k : α) (v : β) : List (α × β) → List (α × β)
  | [] => [(k, v)]
  | (k', v') :: rest =>
    if k' == k then (k', v') :: rest else (k', v') :: dsetdefault k v rest

/-- Dict lookup `d.get(k)`. -/
def dget {α β : Type} [BEq α] (k : α) : List (α × β) → Option β
  | [] => none
  | (k', v') :: rest => if k' == k then some v' else dget k rest

/-! ### GazetteerIndex construction (`geocode_nuforc.py`, module level) -/

/-- The four lookup structures built once from the city dataset.  `largest`
is a pure map because the source only ever calls `.get` on it. -/
structure Gaz where
  idx : List ((String × String × String) × City)
  nidx : List ((String × String × String) × City)
  names : List (String × List (String × City))
  largest : String → Option City

/-- One step of the `_largest_city_by_country` loop: replace the stored city
only when the new population is strictly larger. -/
def largestStep (m : String → Option City) (c : City) : String → Option City :=
  fun cc =>
    if cc = c.countrycode then
      match m c.countrycode with
      | none => some c
      | some L => if L.population < c.population then some c else some L
    else m cc

/-- Embedding of the `_largest_city_by_country` construction loop. -/
def buildLargest (cities : List City) : String → Option City :=
  cities.foldl largestStep (fun _ => none)

/-- Embedding of the first module-level loop of `geocode_nuforc.py`: the raw
and normalized city indexes, keyed by (name, country, admin) with a
`setdefault` for the admin-less key. -/
def buildIdxPair (nfkd : List Char → List Char) (cities : List City) :
    List ((String × String × String) × City) × List ((String × String × String) × City) :=
  cities.foldl
    (fun acc c =>
      let nm := pylower c.name
      let idx := dsetdefault (nm, c.countrycode, "") c
        (dinsert (nm, c.countrycode, c.admin1code) c acc.1)
      let nn := normalizeG nfkd c.name
      let nidx := dsetdefault (nn, c.countrycode, "") c
        (dinsert (nn, c.countrycode, c.admin1code) c acc.2)
      (idx, nidx))
    ([], [])

/-- Embedding of the `_country_city_names` construction (second module-level
loop): country code to inner dict from normalized city name to record. -/
def buildNames (nfkd : List Char → List Char) (cities : List City) :
    List (String × List (String × City)) :=
  cities.foldl
    (fun ns c =>
      let nn := normalizeG nfkd c.name
      match dget c.countrycode ns with
      | none => dinsert c.countrycode [(nn, c)] ns
      | some sub => dinsert c.countrycode (dinsert nn c sub) ns)
    []

/-- All four structures together. -/
def buildGaz (nfkd : List Char → List Char) (cities : List City) : Gaz :=
  { idx := (buildIdxPair nfkd cities).1
    nidx := (buildIdxPair nfkd cities).2
    names := buildNames nfkd cities
    largest := buildLargest cities }

/-! ### CountryResolver (`_map_country`) -/

/-- The fixed sentinel set of non-country values. -/
def sentinelSet : List String :=
  ["unspecified", "international waters", "internatonal waters",
   "atlantic ocean", "puerto rico/burmuda (between)", "unknown"]

/-- The fixed alias table (`common`) of `_map_country`. -/
def aliasList : List (String × String) :=
  [("usa", "US"), ("us", "US"), ("u.s.", "US"), ("united states", "US"),
   ("united states of america", "US"), ("uk", "GB"), ("united kingdom", "GB"),
   ("england", "GB"), ("scotland", "GB"), ("wales", "GB"),
   ("south korea", "KR"), ("north korea", "KP")]

/-- Embedding of `_map_country`: empty and sentinel strings resolve to
nothing; then exact alpha-2 code (dict-key membership on the raw string),
then the first country whose name matches case-insensitively or whose
alpha-3 code matches, then the alias table; anything else is `none`. -/
def mapCountry (countries : List CountryRec) (name : String) : Option String :=
  if name = "" then none
  else
    let lower := pylower (pystrip name)
    if sentinelSet.contains lower then none
    else if countries.any (fun d => d.code == name) then some name
    else
      match countries.find? (fun d =>
          pylower name == pylower d.name || pyupper name == pyupper d.iso3) with
      | some d => some d.code
      | none => dget lower aliasList

/-- The country gate at the top of `_find_coords`: try the raw string, then
retry uppercased. -/
def resolveIso (countries : List CountryRec) (name : String) : Option String :=
  match mapCountry countries name with
  | some iso => some iso
  | none => mapCountry countries (pyupper name)

/-! ### Resolver fallback chain (`_find_coords`) -/

/-- Admin-region normalization (Step 2): strip the state, uppercase it when
it is at most three characters long. -/
def mkAdmin (state : String) : String :=
  if state = "" then ""
  else
    let a := pystrip state
    if a.length ≤ 3 then pyupper a else a

/-- Contiguous-substring test, Python's `x in y` on strings. -/
def isSubstrB (needle hay : List Char) : Bool :=
  hay.tails.any (fun t => needle.isPrefixOf t)

/-- Tiers (a) and (b): exact raw-name lookup with the admin code, then (for
a non-empty city) without it. -/
def exactTier (G : Gaz) (iso admin city : String) : Option City :=
  match dget (pylower city, iso, admin) G.idx with
  | some c => some c
  | none => if city = "" then none else dget (pylower city, iso, "") G.idx

/-- Tier (e): scan the normalized index in insertion order and accept the
first entry of the same country whose stored name equals, contains, or is
contained in the normalized city name. -/
def scanSub (G : Gaz) (iso ncity : String) : Option City :=
  (G.nidx.find? (fun kv =>
      kv.1.2.1 == iso &&
        (decide (ncity ≠ "") &&
          (kv.1.1 == ncity || isSubstrB ncity.data kv.1.1.data ||
            isSubstrB kv.1.1.data ncity.data)))).map (fun kv => kv.2)

/-- Tiers (a)-(f) of `_find_coords`: the city-level fallback chain.  The
close-string matcher (tier f) is a parameter `cm`, taking the candidate list
`list(_country_city_names[iso].keys())` and the normalized city name. -/
def cityTierResult (nfkd : List Char → List Char) (G : Gaz)
    (cm : List String → String → Option String)
    (iso admin city : String) : Option City :=
  match exactTier G iso admin city with
  | some c => some c
  | none =>
    if city = "" then none
    else
      let n := normalizeG nfkd city
      match dget (n, iso, admin) G.nidx with
      | some c => some c
      | none =>
        match dget (n, iso, "") G.nidx with
        | some c => some c
        | none =>
          match scanSub G iso n with
          | some c => some c
          | none =>
            match dget iso G.names with
            | none => none
            | some sub =>
              match cm (sub.map (fun p => p.1)) n with
              | some m => dget m sub
              | none => none

/-- Embedding of `_find_coords`.  The country gate returns the empty pair;
after the city tiers the largest-city fallback applies; if even that map has
no entry the source subscripts `None` and raises, modelled as
`Except.error ()` (the branch discussed in the spec's design notes). -/
def findCoords (nfkd : List Char → List Char) (G : Gaz)
    (cm : List String → String → Option String)
    (countries : List CountryRec) (city state country : String) :
    Except Unit (String × String) :=
  match resolveIso countries country with
  | none => .ok ("", "")
  | some iso =>
    let admin := mkAdmin state
    match
      (match cityTierResult nfkd G cm iso admin city with
       | some c => some c
       | none => G.largest iso) with
    | none => .error ()
    | some c => .ok (toString c.latitude, toString c.longitude)

/-! ### Batch pass over the dataset rows (`geocode_nuforc.py`, row loop) -/

/-- Embedding of one iteration of the geocoding row loop: if the row already
carries non-empty (stripped) coordinates it is skipped; otherwise the
resolver runs, its result is written back when both parts are non-empty, and
on failure the (stripped) existing values are restored.  The resolver is a
parameter so that the theorems can quantify over it; an exception from it
aborts the batch, as in the source. -/
def geocodeRowStep (fc : String → String → String → Except Unit (String × String))
    (r : Row) : Except Unit Row :=
  let elat := pystrip r.lat
  let elon := pystrip r.lon
  if elat ≠ "" ∧ elon ≠ "" then .ok r
  else
    match fc r.city r.state r.country with
    | .error e => .error e
    | .ok (lat, lon) =>
      if lat ≠ "" ∧ lon ≠ "" then .ok { r with lat := lat, lon := lon }
      else .ok { r with lat := elat, lon := elon }

/-- The row loop with the real resolver plugged in (anchor definition tying
the pieces together as in the source pipeline). -/
def geocodeRows (nfkd : List Char → List Char) (cities : List City)
    (cm : List String → String → Option String)
    (countries : List CountryRec) (rows : List Row) : Except Unit (List Row) :=
  rows.mapM (geocodeRowStep (findCoords nfkd (buildGaz nfkd cities) cm countries))

/-! ### Override export, load, and reconciliation
(`tools/export_missing_city_keys.py`, `tools/apply_missing_city_keys.py`) -/

/-- The (stripped) key under which a row is exported and looked up. -/
def rowKey (r : Row) : String × String × String :=
  (pystrip r.city, pystrip r.state, pystrip r.country)

/-- The export condition: a row counts as unresolved when its stripped
coordinates are not both non-empty. -/
def unresolvedB (r : Row) : Bool :=
  pystrip r.lat == "" || pystrip r.lon == ""

/-- The unique keys written by `export_missing_city_keys.py` (the `Counter`
keeps one entry per distinct key; its count column and `most_common`
ordering are irrelevant to membership and are not modelled). -/
def exportKeys (rows : List Row) : List (String × String × String) :=
  ((rows.filter unresolvedB).map rowKey).dedup

/-- One step of the mapping-load loop of `apply_missing_city_keys.py`: an
override row is entered into the mapping only when both stripped
coordinates are non-empty; a later row with the same key overwrites. -/
def loadStep (m : String × String × String → Option (String × String)) (r : Row) :
    String × String × String → Option (String × String) :=
  let la := pystrip r.lat
  let lo := pystrip r.lon
  if la ≠ "" ∧ lo ≠ "" then
    fun k => if k = rowKey r then some (la, lo) else m k
  else m

/-- The override mapping loaded from the override table. -/
def loadMapping (tbl : List Row) : String × String × String → Option (String × String) :=
  tbl.foldl loadStep (fun _ => none)

/-- One iteration of the apply loop: rows with non-empty stripped
coordinates are skipped; otherwise the mapping is consulted at the row's
stripped key and, on a hit, both coordinates are overwritten. -/
def applyRow (m : String × String × String → Option (String × String)) (r : Row) : Row :=
  if pystrip r.lat ≠ "" ∧ pystrip r.lon ≠ "" then r
  else
    match m (rowKey r) with
    | some v => { r with lat := v.1, lon := v.2 }
    | none => r

/-- The OverrideReconciler pass over a dataset. -/
def reconcile (m : String × String × String → Option (String × String))
    (rows : List Row) : List Row :=
  rows.map (applyRow m)

/-- The override table obtained by taking the export of `rows` and filling
each exported row's coordinate columns with `fill` of its key (the export
writes the key fields already stripped, with empty `lat`/`lon`). -/
def filledTable (rows : List Row)
    (fill : String × String × String → String × String) : List Row :=
  (exportKeys rows).map (fun k =>
    { city := k.1, state := k.2.1, country := k.2.2,
      lat := (fill k).1, lon := (fill k).2 })

/-! ### difflib model (`get_close_matches` with `n = 1`)

Python's `difflib.get_close_matches(word, possibilities, n=1, cutoff)` keeps
every candidate whose Ratcliff/Obershelp ratio against `word` reaches the
cutoff and returns the maximum of the `(ratio, candidate)` pairs (the two
quick-ratio pre-filters are upper bounds of `ratio` and therefore do not
change the kept set; `heapq.nlargest(1, .)` is the lexicographic maximum of
the pairs, so equal ratios are decided by string comparison).  The ratio is
`2 * M / T` where `T` is the total length and `M` the total size of the
matching blocks; cutoff comparisons are modelled on exact rationals. -/

/-- Indices of the occurrences of a character in `b`, ascending (difflib's
`b2j` chains). -/
def b2jIdx (b : List Char) (ch : Char) : List Nat :=
  (b.enum.filter (fun p => p.2 == ch)).map (fun p => p.1)

/-- Lookup with default 0 in the per-row length table `j2len`. -/
def j2lenGet (l : List (Nat × Nat)) (k : Nat) : Nat :=
  match l.find? (fun p => p.1 == k) with
  | some p => p.2
  | none => 0

/-- One row of the `find_longest_match` dynamic program: for row `i`, visit
the in-window occurrences `j` of `a[i]` in `b`, extend the diagonal run
ending at `(i-1, j-1)`, and update the running best block. -/
def flmRow (oldJ2 : List (Nat × Nat)) (js : List Nat) (blo bhi i : Nat)
    (best : Nat × Nat × Nat) : (Nat × Nat × Nat) × List (Nat × Nat) :=
  (js.filter (fun j => decide (blo ≤ j) && decide (j < bhi))).foldl
    (fun st j =>
      let k := (if j = 0 then 0 else j2lenGet oldJ2 (j - 1)) + 1
      let best := if st.1.2.2 < k then (i + 1 - k, j + 1 - k, k) else st.1
      (best, (j, k) :: st.2))
    (best, [])

/-- Embedding of `SequenceMatcher.find_longest_match` on the window
`[alo,ahi) x [blo,bhi)`, without junk (autojunk only fires for sequences of
length at least 200, far above anything the engine compares): returns
`(besti, bestj, bestsize)`.  The source's two extension loops are no-ops
without junk because the dynamic program already finds a maximal block. -/
def findLongestM (a b : List Char) (alo ahi blo bhi : Nat) : Nat × Nat × Nat :=
  ((List.range' alo (ahi - alo)).foldl
    (fun st i =>
      let js := match a[i]? with
                | some ch => b2jIdx b ch
                | none => []
      flmRow st.2 js blo bhi i st.1)
    ((alo, blo, 0), [])).1

/-- Total size of the matching blocks (the recursion of
`get_matching_blocks`, fuelled; the fuel below always suffices because each
recursive window is strictly smaller). -/
def matchesTotal (a b : List Char) : Nat → Nat → Nat → Nat → Nat → Nat
  | 0, _, _, _, _ => 0
  | fuel + 1, alo, ahi, blo, bhi =>
    let r := findLongestM a b alo ahi blo bhi
    if r.2.2 = 0 then 0
    else
      r.2.2 + matchesTotal a b fuel alo r.1 blo r.2.1 +
        matchesTotal a b fuel (r.1 + r.2.2) ahi (r.2.1 + r.2.2) bhi

/-- The matched-element count `M` of `SequenceMatcher(a, b).ratio()`. -/
def ratioM (a b : List Char) : Nat :=
  matchesTotal a b (a.length + b.length + 1) 0 a.length 0 b.length

/-- Exact-rational test `ratio(a, b) >= num/den`. -/
def ratioGE (a b : List Char) (num den : Nat) : Bool :=
  decide (num * (a.length + b.length) ≤ 2 * ratioM a b * den)

/-- Lexicographic (code-point) comparison of Python strings. -/
def lexLtB : List Char → List Char → Bool
  | [], [] => false
  | [], _ :: _ => true
  | _ :: _, [] => false
  | a :: as, b :: bs =>
    if a.toNat < b.toNat then true
    else if b.toNat < a.toNat then false
    else lexLtB as bs

/-- Tuple comparison of `(ratio, candidate)` pairs as used by
`heapq.nlargest`: larger ratio first, larger string on ties. -/
def betterCand (word x y : List Char) : Bool :=
  let cx := ratioM x word * (y.length + word.length)
  let cy := ratioM y word * (x.length + word.length)
  decide (cy < cx) || (decide (cx = cy) && lexLtB y x)

/-- Embedding of `difflib.get_close_matches(word, poss, n=1, cutoff=num/den)`
returning the single best candidate, if any reaches the cutoff. -/
def getCloseMatch1 (word : List Char) (poss : List (List Char)) (num den : Nat) :
    Option (List Char) :=
  (poss.filter (fun x => ratioGE x word num den)).foldl
    (fun best x =>
      match best with
      | none => some x
      | some y => if betterCand word x y then some x else some y)
    none

/-- The close-string matcher of tier (f) of `_find_coords`
(`difflib.get_close_matches(ncity, candidates, n=1, cutoff=0.78)`). -/
def cmDifflib (candidates : List String) (q : String) : Option String :=
  (getCloseMatch1 q.data (candidates.map String.data) 39 50).map String.mk

/-! ### Country resolution of `tools/auto_fill_missing_city_keys.py` -/

/-- The manual variants merged into `country_name_to_code` by the source's
`.update({...})`, in literal order. -/
def manualCountryPairs : List (String × String) :=
  [("usa", "US"), ("united states", "US"), ("united states of america", "US"),
   ("us", "US"), ("uk", "GB"), ("united kingdom", "GB"), ("england", "GB"),
   ("south korea", "KR"), ("north korea", "KP")]

/-- Embedding of the `country_name_to_code` table: normalized country names
and alpha-3 codes from the reference dataset, then the manual variants. -/
def countryNameToCode (u : Uni) (countries : List CountryRec) :
    List (String × String) :=
  manualCountryPairs.foldl (fun m p => dinsert p.1 p.2 m)
    (countries.foldl
      (fun m d =>
        let m := dinsert (normalizeA u d.name) d.code m
        if d.iso3 ≠ "" then dinsert (normalizeA u d.iso3) d.code m else m)
      [])

/-- Embedding of the country-code resolution of the auto-fill loop: direct
lookups of the normalized country (uppercased, then as-is), then a difflib
close match over the table keys with cutoff 0.8, then the raw uppercase
USA/UK variant check. -/
def autoFillCC (u : Uni) (countries : List CountryRec) (rawField : String) :
    Option String :=
  let country := pystrip rawField
  let ncountry := normalizeA u country
  let tbl := countryNameToCode u countries
  let cc0 : Option String :=
    if ncountry = "" then none
    else
      match dget (pyupper ncountry) tbl with
      | some cc => some cc
      | none =>
        match dget ncountry tbl with
        | some cc => some cc
        | none =>
          match getCloseMatch1 ncountry.data (tbl.map (fun p => p.1.data)) 4 5 with
          | some m => dget (String.mk m) tbl
          | none => none
  match cc0 with
  | some cc => some cc
  | none =>
    if country = "" then none
    else
      let keyu := pyupper country
      if keyu = "USA" ∨ keyu = "US" ∨ keyu = "UNITED STATES" ∨
          keyu = "UNITED STATES OF AMERICA" then some "US"
      else if keyu = "UK" ∨ keyu = "UNITED KINGDOM" ∨ keyu = "ENGLAND" then some "GB"
      else none

/-! ### Backup step of the auto-fill merge (file-system model)

The tail of `tools/auto_fill_missing_city_keys.py` renames the canonical
override file to the backup name, writes the filled rows to a scratch file,
and moves the scratch file over the canonical name.  The file system is a
map from path to contents; `rename`/`replace` overwrite an existing
destination, as `Path.rename`/`Path.replace` do on POSIX. -/

/-- Canonical override file path. -/
def missingPath : String := "new_site (1)/database/missing_city_keys.csv"

/-- Backup path. -/
def backupPath : String := "new_site (1)/database/missing_city_keys.backup.csv"

/-- Scratch output path. -/
def outPath : String := "new_site (1)/database/missing_city_keys_filled.csv"

/-- File rename (also `Path.replace`): the destination receives the source's
contents and the source disappears. -/
def fsRename (src dst : String) (fs : String → Option String) : String → Option String :=
  fun p => if p = dst then fs src else if p = src then none else fs p

/-- File write. -/
def fsWrite (path content : String) (fs : String → Option String) : String → Option String :=
  fun p => if p = path then some content else fs p

/-- The write-back sequence of the auto-fill tool:
`MISSING.rename(BACKUP)`, write `OUT`, `OUT.replace(MISSING)`. -/
def autoFillWriteback (filled : String) (fs : String → Option String) :
    String → Option String :=
  fsRename outPath missingPath (fsWrite outPath filled (fsRename missingPath backupPath fs))

/-! ### Lemmas about the strip and collapse primitives -/

theorem dropWhile_eq_cons_false {α : Type} {p : α → Bool} {l t : List α} {c : α}
    (h : l.dropWhile p = c :: t) : p c = false := by
  induction l with
  | nil => simp [List.dropWhile] at h
  | cons a l ih =>
    rw [List.dropWhile_cons] at h
    split at h
    · exact ih h
    · rename_i hp
      cases h
      simpa using hp

theorem dropWhile_eq_self_of_head {α : Type} {p : α → Bool} {l : List α}
    (h : ∀ c, l.head? = some c → p c = false) : l.dropWhile p = l := by
  cases l with
  | nil => rfl
  | cons a l =>
    have := h a rfl
    simp [List.dropWhile_cons, this]

theorem stripLWith_toDrop {p : Char → Bool} (l : List Char) :
    stripLWith p l ++ ((l.dropWhile p).reverse.takeWhile p).reverse = l.dropWhile p := by
  unfold stripLWith dropTrailWith
  rw [← List.reverse_append, List.takeWhile_append_dropWhile, List.reverse_reverse]

theorem stripLWith_decomp {p : Char → Bool} (l : List Char) :
    ∃ u v, l = u ++ (stripLWith p l ++ v) := by
  refine ⟨l.takeWhile p, ((l.dropWhile p).reverse.takeWhile p).reverse, ?_⟩
  rw [stripLWith_toDrop, List.takeWhile_append_dropWhile]

theorem mem_stripLWith {p : Char → Bool} {l : List Char} {c : Char}
    (h : c ∈ stripLWith p l) : c ∈ l := by
  obtain ⟨u, v, hl⟩ := stripLWith_decomp (p := p) l
  rw [hl]
  exact List.mem_append.mpr (Or.inr (List.mem_append.mpr (Or.inl h)))

theorem chain'_stripLWith {R : Char → Char → Prop} {p : Char → Bool} {l : List Char}
    (h : List.Chain' R l) : List.Chain' R (stripLWith p l) := by
  obtain ⟨u, v, hl⟩ := stripLWith_decomp (p := p) l
  rw [hl] at h
  exact (h.right_of_append).left_of_append

theorem stripLWith_head {p : Char → Bool} {l t : List Char} {c : Char}
    (h : stripLWith p l = c :: t) : p c = false := by
  have h1 := stripLWith_toDrop (p := p) l
  rw [h] at h1
  exact dropWhile_eq_cons_false h1.symm

theorem stripLWith_getLast {p : Char → Bool} {l : List Char} {c : Char}
    (h : (stripLWith p l).getLast? = some c) : p c = false := by
  unfold stripLWith dropTrailWith at h
  rw [List.getLast?_reverse] at h
  cases hw : ((l.dropWhile p).reverse).dropWhile p with
  | nil => rw [hw] at h; simp at h
  | cons d t =>
    rw [hw] at h
    simp at h
    subst h
    exact dropWhile_eq_cons_false hw

theorem stripLWith_eq_self {p : Char → Bool} {l : List Char}
    (hh : ∀ c, l.head? = some c → p c = false)
    (hl : ∀ c, l.getLast? = some c → p c = false) : stripLWith p l = l := by
  unfold stripLWith dropTrailWith
  rw [dropWhile_eq_self_of_head hh]
  have hrev : l.reverse.dropWhile p = l.reverse := by
    apply dropWhile_eq_self_of_head
    intro c hc
    rw [List.head?_reverse] at hc
    exact hl c hc
  rw [hrev, List.reverse_reverse]

theorem stripLWith_idem {p : Char → Bool} (l : List Char) :
    stripLWith p (stripLWith p l) = stripLWith p l := by
  apply stripLWith_eq_self
  · intro c hc
    cases hs : stripLWith p l with
    | nil => rw [hs] at hc; simp at hc
    | cons d t =>
      rw [hs] at hc
      simp at hc
      subst hc
      exact stripLWith_head hs
  · intro c hc
    exact stripLWith_getLast hc

theorem collapseWith_nil {p : Char → Bool} : collapseWith p [] = [] := rfl

theorem collapseWith_singleton {p : Char → Bool} {a : Char} :
    collapseWith p [a] = if p a then [' '] else [a] := rfl

theorem collapseWith_cons2 {p : Char → Bool} {a b : Char} {t : List Char} :
    collapseWith p (a :: b :: t) =
      if p a && p b then collapseWith p (b :: t)
      else (if p a then ' ' else a) :: collapseWith p (b :: t) := rfl

theorem mem_collapseWith {p : Char → Bool} :
    ∀ {l : List Char} {c : Char}, c ∈ collapseWith p l →
      c = ' ' ∨ (c ∈ l ∧ p c = false) := by
  intro l
  induction l with
  | nil => intro c h; simp [collapseWith_nil] at h
  | cons a t ih =>
    intro c h
    cases t with
    | nil =>
      rw [collapseWith_singleton] at h
      split at h
      · simp at h
        subst h
        exact Or.inl rfl
      · rename_i hp
        simp at h
        subst h
        exact Or.inr ⟨by simp, by simpa using hp⟩
    | cons b t' =>
      rw [collapseWith_cons2] at h
      split at h
      · rcases ih h with h1 | ⟨h2, h3⟩
        · exact Or.inl h1
        · exact Or.inr ⟨List.mem_cons_of_mem _ h2, h3⟩
      · rcases List.mem_cons.mp h with h1 | h1
        · subst h1
          by_cases hpa : p a
          · simp [hpa]
          · refine Or.inr ⟨?_, ?_⟩ <;> simp [hpa]
        · rcases ih h1 with h2 | ⟨h3, h4⟩
          · exact Or.inl h2
          · exact Or.inr ⟨List.mem_cons_of_mem _ h3, h4⟩

theorem collapseWith_cons_of_neg {p : Char → Bool} {a : Char} {l : List Char}
    (hpa : p a = false) : collapseWith p (a :: l) = a :: collapseWith p l := by
  cases l with
  | nil => simp [collapseWith_singleton, hpa, collapseWith_nil]
  | cons b t => simp [collapseWith_cons2, hpa]

theorem chain'_collapseWith {p : Char → Bool} :
    ∀ l : List Char,
      List.Chain' (fun x y => ¬(p x = true ∧ p y = true)) (collapseWith p l) := by
  intro l
  induction l with
  | nil => simp [collapseWith_nil]
  | cons a t ih =>
    cases t with
    | nil =>
      rw [collapseWith_singleton]
      split <;> simp
    | cons b t' =>
      rw [collapseWith_cons2]
      split
      · exact ih
      · rename_i hp
        rw [List.chain'_cons']
        refine ⟨?_, ih⟩
        intro y hy
        by_cases hpa : p a
        · have hpb : p b = false := by
            cases hb : p b
            · rfl
            · exact absurd (by simp [hpa, hb]) hp
          rw [collapseWith_cons_of_neg hpb] at hy
          simp at hy
          subst hy
          simp [hpb]
        · simp [hpa]

theorem collapseWith_eq_self {p : Char → Bool} :
    ∀ {l : List Char}, List.Chain' (fun x y => ¬(p x = true ∧ p y = true)) l →
      (∀ c ∈ l, p c = true → c = ' ') → collapseWith p l = l := by
  intro l
  induction l with
  | nil => intro _ _; rfl
  | cons a t ih =>
    intro hch hsp
    cases t with
    | nil =>
      rw [collapseWith_singleton]
      by_cases hpa : p a
      · rw [if_pos hpa, hsp a (by simp) hpa]
      · rw [if_neg hpa]
    | cons b t' =>
      rw [collapseWith_cons2]
      have hnb : ¬(p a = true ∧ p b = true) :=
        (List.chain'_cons'.mp hch).1 b (by simp)
      have ht := ih (List.chain'_cons'.mp hch).2
        (fun c hc hpc => hsp c (List.mem_cons_of_mem _ hc) hpc)
      rw [if_neg (by cases hA : p a <;> cases hB : p b <;> simp_all), ht]
      by_cases hpa : p a
      · rw [if_pos hpa, hsp a (by simp) hpa]
      · rw [if_neg hpa]

theorem chain'_of_all_false {p : Char → Bool} {l : List Char}
    (h : ∀ c ∈ l, p c = false) :
    List.Chain' (fun x y => ¬(p x = true ∧ p y = true)) l := by
  induction l with
  | nil => simp
  | cons a t ih =>
    rw [List.chain'_cons']
    refine ⟨fun y _ => ?_, ih fun c hc => h c (List.mem_cons_of_mem _ hc)⟩
    simp [h a (by simp)]

theorem mapSelfOf {α : Type} {f : α → α} {l : List α}
    (h : ∀ c ∈ l, f c = c) : l.map f = l := by
  induction l with
  | nil => rfl
  | cons a t ih =>
    simp only [List.map_cons, h a (by simp)]
    rw [ih fun c hc => h c (List.mem_cons_of_mem _ hc)]

/-! ### Character-class facts -/

theorem lowerAscii_of_canon {c : Char} (h : isCanon c = true) : lowerAscii c = c := by
  rw [lowerAscii, if_neg]
  rintro ⟨h1, h2⟩
  simp [isCanon, isLowAlnum] at h
  omega

theorem canon_lt_128 {c : Char} (h : isCanon c = true) :
    decide (c.toNat < 128) = true := by
  simp only [isCanon, isLowAlnum, Bool.or_eq_true, Bool.and_eq_true,
    decide_eq_true_eq] at h ⊢
  omega

theorem canon_keep {c : Char} (h : isCanon c = true) :
    (isLowAlnum c || isPySpace c) = true := by
  simp only [isCanon, isLowAlnum, isPySpace, Bool.or_eq_true, Bool.and_eq_true,
    decide_eq_true_eq] at h ⊢
  omega

/-! ### Properties of the shared `collapse`-then-`strip` tail of the
normalizers -/

theorem out1_canon {m : List Char}
    (hm : ∀ c ∈ m, (isLowAlnum c || isPySpace c) = true) :
    ∀ c ∈ stripLWith isPySpace (collapseWith isPySpace m), isCanon c = true := by
  intro c hc
  rcases mem_collapseWith (mem_stripLWith hc) with rfl | ⟨h2, h3⟩
  · decide
  · have h4 := hm c h2
    rcases (by simpa using h4 : isLowAlnum c = true ∨ isPySpace c = true) with hl | hsp
    · simp [isCanon, hl]
    · rw [h3] at hsp
      cases hsp

theorem out1_space_eq {m : List Char} {c : Char}
    (hc : c ∈ stripLWith isPySpace (collapseWith isPySpace m))
    (hs : isPySpace c = true) : c = ' ' := by
  rcases mem_collapseWith (mem_stripLWith hc) with h | ⟨_, h2⟩
  · exact h
  · rw [hs] at h2
    cases h2

theorem out1_collapse_fix (m : List Char) :
    collapseWith isPySpace (stripLWith isPySpace (collapseWith isPySpace m))
      = stripLWith isPySpace (collapseWith isPySpace m) := by
  apply collapseWith_eq_self
  · exact chain'_stripLWith (chain'_collapseWith m)
  · intro c hc hp
    exact out1_space_eq hc hp

theorem collapse_bad_chars (mA : List Char) :
    ∀ c ∈ collapseWith (fun c => !isCanon c) mA,
      (isLowAlnum c || isPySpace c) = true := by
  intro c hc
  rcases mem_collapseWith hc with rfl | ⟨_, h2⟩
  · decide
  · have h3 : isCanon c = true := by
      cases h : isCanon c
      · rw [h] at h2; cases h2
      · rfl
    exact canon_keep h3

theorem collapse_bad_fix {l : List Char} (h : ∀ c ∈ l, isCanon c = true) :
    collapseWith (fun c => !isCanon c) l = l := by
  apply collapseWith_eq_self
  · exact chain'_of_all_false (fun c hc => by simp [h c hc])
  · intro c hc hp
    rw [h c hc] at hp
    cases hp

/-! ### Idempotence of the two normalizers -/

theorem normalizeG_idem {u : Uni} (hu : u.Sane) (s : String) :
    normalizeG u.nfkd (normalizeG u.nfkd s) = normalizeG u.nfkd s := by
  by_cases hs : s = ""
  · subst hs; rfl
  · have hout : normalizeG u.nfkd s =
        ⟨stripLWith isPySpace (collapseWith isPySpace
          ((((u.nfkd s.data).filter (fun c => decide (c.toNat < 128))).map lowerAscii).filter
            (fun c => isLowAlnum c || isPySpace c)))⟩ := by
      rw [normalizeG, if_neg hs]
    set m := (((u.nfkd s.data).filter (fun c => decide (c.toNat < 128))).map lowerAscii).filter
        (fun c => isLowAlnum c || isPySpace c) with hmdef
    set out := stripLWith isPySpace (collapseWith isPySpace m) with hodef
    by_cases hnil : out = []
    · rw [hout, hnil]
      rfl
    · have hm_chars : ∀ c ∈ m, (isLowAlnum c || isPySpace c) = true := by
        intro c hc
        exact (List.mem_filter.mp hc).2
      have hcanon : ∀ c ∈ out, isCanon c = true := out1_canon hm_chars
      have hnil' : ¬(String.mk out = "") := by
        intro h
        apply hnil
        have h2 := congrArg String.data h
        simpa using h2
      rw [hout, normalizeG, if_neg hnil']
      rw [show (String.mk out).data = out from rfl]
      rw [hu.nfkd_canon out hcanon]
      rw [List.filter_eq_self.mpr (fun c hc => canon_lt_128 (hcanon c hc))]
      rw [mapSelfOf (fun c hc => lowerAscii_of_canon (hcanon c hc))]
      rw [List.filter_eq_self.mpr (fun c hc => canon_keep (hcanon c hc))]
      rw [out1_collapse_fix m]
      rw [stripLWith_idem]

theorem normalizeA_idem {u : Uni} (hu : u.Sane) (s : String) :
    normalizeA u (normalizeA u s) = normalizeA u s := by
  by_cases hs : s = ""
  · subst hs; rfl
  · have hout : normalizeA u s =
        ⟨stripLWith isPySpace (collapseWith isPySpace
          (collapseWith (fun c => !isCanon c)
            ((u.nfkd (u.pyLower (u.pyStrip s.data))).filter (fun c => !u.combining c))))⟩ := by
      rw [normalizeA, if_neg hs]
    set mA := (u.nfkd (u.pyLower (u.pyStrip s.data))).filter (fun c => !u.combining c)
      with hmadef
    set m := collapseWith (fun c => !isCanon c) mA with hmdef
    set out := stripLWith isPySpace (collapseWith isPySpace m) with hodef
    by_cases hnil : out = []
    · rw [hout, hnil]
      rfl
    · have hm_chars : ∀ c ∈ m, (isLowAlnum c || isPySpace c) = true := by
        rw [hmdef]
        exact collapse_bad_chars mA
      have hcanon : ∀ c ∈ out, isCanon c = true := out1_canon hm_chars
      have hnil' : ¬(String.mk out = "") := by
        intro h
        apply hnil
        have h2 := congrArg String.data h
        simpa using h2
      have hso : stripLWith isPySpace out = out := by
        rw [hodef]
        exact stripLWith_idem _
      have hcsp : collapseWith isPySpace out = out := by
        rw [hodef]
        exact out1_collapse_fix m
      have hbad : collapseWith (fun c => !isCanon c) out = out := collapse_bad_fix hcanon
      have hcomb : out.filter (fun c => !u.combining c) = out :=
        List.filter_eq_self.mpr (fun c hc => by simp [hu.combining_canon c (hcanon c hc)])
      rw [hout, normalizeA, if_neg hnil']
      rw [show (String.mk out).data = out from rfl]
      rw [hu.strip_canon out hcanon, hso, hu.lower_canon out hcanon,
        hu.nfkd_canon out hcanon, hcomb, hbad, hcsp, hso]

/-- The ASCII instantiation satisfies all the Unicode sanity facts. -/
theorem asciiUni_sane : asciiUni.Sane where
  nfkd_canon := fun _ _ => rfl
  strip_canon := fun _ _ => rfl
  lower_canon := fun _ h => mapSelfOf (fun c hc => lowerAscii_of_canon (h c hc))
  combining_canon := fun _ _ => rfl

/-- C8: the Normalizer is idempotent.  Both normalization routines of the
repository (`geocode_nuforc._normalize` and
`tools/auto_fill_missing_city_keys.normalize`) satisfy
`normalize (normalize x) = normalize x` for every input string, for any
Unicode collaborators satisfying the `Uni.Sane` facts; determinism and
purity hold by construction, since both are plain functions of their
argument. -/
theorem c8_normalize_idempotent (u : Uni) (hu : u.Sane) (x : String) :
    normalizeG u.nfkd (normalizeG u.nfkd x) = normalizeG u.nfkd x ∧
      normalizeA u (normalizeA u x) = normalizeA u x :=
  ⟨normalizeG_idem hu x, normalizeA_idem hu x⟩

/-- Witness for C8 at the ASCII instantiation and a concrete string. -/
theorem c8_normalize_idempotent_witness :
    asciiUni.Sane ∧
      (normalizeG asciiUni.nfkd (normalizeG asciiUni.nfkd "  Hello,,  WORLD  9 ")
          = normalizeG asciiUni.nfkd "  Hello,,  WORLD  9 " ∧
        normalizeA asciiUni (normalizeA asciiUni "  Hello,,  WORLD  9 ")
          = normalizeA asciiUni "  Hello,,  WORLD  9 ") :=
  ⟨asciiUni_sane, c8_normalize_idempotent asciiUni asciiUni_sane "  Hello,,  WORLD  9 "⟩

/-- C1: a row whose stripped `lat` and `lon` are both non-empty is never
changed: the geocoding batch loop skips it before consulting the resolver
(whatever resolver function is plugged in), and the override reconciler
leaves it untouched for every override mapping. -/
theorem c1_preexisting_untouched (r : Row)
    (h : pystrip r.lat ≠ "" ∧ pystrip r.lon ≠ "") :
    (∀ fc, geocodeRowStep fc r = .ok r) ∧ (∀ m, applyRow m r = r) := by
  constructor
  · intro fc
    simp only [geocodeRowStep]
    rw [if_pos h]
  · intro m
    simp only [applyRow]
    rw [if_pos h]

/-- Witness for C1 at a concrete already-resolved row. -/
theorem c1_preexisting_untouched_witness :
    (pystrip "40.7" ≠ "" ∧ pystrip "-74.0" ≠ "") ∧
      ((∀ fc, geocodeRowStep fc ⟨"New York", "NY", "USA", "40.7", "-74.0"⟩
          = .ok ⟨"New York", "NY", "USA", "40.7", "-74.0"⟩) ∧
        (∀ m, applyRow m ⟨"New York", "NY", "USA", "40.7", "-74.0"⟩
          = ⟨"New York", "NY", "USA", "40.7", "-74.0"⟩)) :=
  ⟨⟨by decide, by decide⟩,
    c1_preexisting_untouched ⟨"New York", "NY", "USA", "40.7", "-74.0"⟩
      ⟨by decide, by decide⟩⟩

/-- C4: when the CountryResolver maps a country string to nothing, both on
the raw string and on the uppercased retry, `_find_coords` returns the
empty pair for every gazetteer, close matcher and normalizer — so the
internal tiers (a)-(g) produce no result and no city index is consulted;
only the external fallback can later fill such a row. -/
theorem c4_country_gate (countries : List CountryRec) (country : String)
    (h1 : mapCountry countries country = none)
    (h2 : mapCountry countries (pyupper country) = none) :
    ∀ (nfkd : List Char → List Char) (G : Gaz)
      (cm : List String → String → Option String) (city state : String),
      findCoords nfkd G cm countries city state country = .ok ("", "") := by
  intro nfkd G cm city state
  simp only [findCoords, resolveIso, h1, h2]

/-- Witness for C4 at an unknown country string. -/
theorem c4_country_gate_witness :
    (mapCountry [] "Atlantis" = none ∧ mapCountry [] (pyupper "Atlantis") = none) ∧
      findCoords (fun l => l) (buildGaz (fun l => l) []) (fun _ _ => none) []
        "Springfield" "IL" "Atlantis" = .ok ("", "") :=
  ⟨⟨by decide, by decide⟩,
    c4_country_gate [] "Atlantis" (by decide) (by decide)
      (fun l => l) (buildGaz (fun l => l) []) (fun _ _ => none) "Springfield" "IL"⟩

/-- C9: the auto-fill write-back renames the canonical override file to the
backup name before anything overwrites it, so after the whole sequence the
backup file holds exactly the original override table. -/
theorem c9_backup_preserved (fs : String → Option String) (orig filled : String)
    (h : fs missingPath = some orig) :
    autoFillWriteback filled fs backupPath = some orig := by
  simp [autoFillWriteback, fsRename, fsWrite, missingPath, backupPath, outPath]
  exact h

/-- Witness for C9 at a concrete one-file file system. -/
theorem c9_backup_preserved_witness :
    ((fun p => if p = missingPath then some "key,lat,lon" else none) missingPath
        = some "key,lat,lon") ∧
      autoFillWriteback "key,lat,lon,filled"
        (fun p => if p = missingPath then some "key,lat,lon" else none) backupPath
        = some "key,lat,lon" :=
  ⟨by simp, c9_backup_preserved _ "key,lat,lon" "key,lat,lon,filled" (by simp)⟩

/-- C10: an override-table row with exactly one non-empty stripped
coordinate is ignored by the loader, wherever it sits in the table: the
mapping built with it equals the mapping built without it, and hence the
reconciler fills exactly the same dataset rows. -/
theorem c10_half_filled_override_ignored (r : Row)
    (h : (pystrip r.lat ≠ "" ∧ pystrip r.lon = "") ∨
      (pystrip r.lat = "" ∧ pystrip r.lon ≠ "")) :
    ∀ pre post : List Row,
      loadMapping (pre ++ r :: post) = loadMapping (pre ++ post) ∧
        ∀ rows, reconcile (loadMapping (pre ++ r :: post)) rows
          = reconcile (loadMapping (pre ++ post)) rows := by
  intro pre post
  have hstep : ∀ m, loadStep m r = m := by
    intro m
    have hc : ¬(pystrip r.lat ≠ "" ∧ pystrip r.lon ≠ "") := by
      rcases h with ⟨ha, hb⟩ | ⟨ha, hb⟩
      · exact fun hx => hx.2 hb
      · exact fun hx => hx.1 ha
    simp only [loadStep]
    rw [if_neg hc]
  have h1 : loadMapping (pre ++ r :: post) = loadMapping (pre ++ post) := by
    unfold loadMapping
    rw [List.foldl_append, List.foldl_append, List.foldl_cons, hstep]
  exact ⟨h1, fun rows => by rw [h1]⟩

/-- Witness for C10 at a concrete half-filled override row. -/
theorem c10_half_filled_override_ignored_witness :
    ((pystrip "39.8" ≠ "" ∧ pystrip "" = "") ∨
        (pystrip "39.8" = "" ∧ pystrip "" ≠ "")) ∧
      (loadMapping ([] ++ ⟨"Springfield", "IL", "USA", "39.8", ""⟩ :: [])
          = loadMapping ([] ++ []) ∧
        ∀ rows, reconcile (loadMapping ([] ++ ⟨"Springfield", "IL", "USA", "39.8", ""⟩ :: [])) rows
          = reconcile (loadMapping ([] ++ [])) rows) :=
  ⟨Or.inl ⟨by decide, by decide⟩,
    c10_half_filled_override_ignored ⟨"Springfield", "IL", "USA", "39.8", ""⟩
      (Or.inl ⟨by decide, by decide⟩) [] []⟩

/-- C2: the resolver tries its tiers in the fixed order exact-with-admin,
exact-without-admin, normalized with and without admin, substring scan,
close match, largest city, and commits to the first hit.  In particular,
when an exact-tier lookup succeeds the result is exactly that match's
coordinates, for every close-string matcher and every choice of the
country-names and largest-city tables — so the fuzzy and largest-city tiers
are never consulted. -/
theorem c2_exact_tier_commits (nfkd : List Char → List Char) (cities : List City)
    (countries : List CountryRec) (city state country iso : String) (c : City)
    (hiso : resolveIso countries country = some iso)
    (hexact : exactTier (buildGaz nfkd cities) iso (mkAdmin state) city = some c) :
    ∀ (cm : List String → String → Option String)
      (N : List (String × List (String × City))) (L : String → Option City),
      findCoords nfkd
          ⟨(buildGaz nfkd cities).idx, (buildGaz nfkd cities).nidx, N, L⟩
          cm countries city state country
        = .ok (toString c.latitude, toString c.longitude) := by
  intro cm N L
  have hex2 : exactTier
      ⟨(buildGaz nfkd cities).idx, (buildGaz nfkd cities).nidx, N, L⟩
      iso (mkAdmin state) city = some c := hexact
  simp only [findCoords, hiso, cityTierResult, hex2]

/-- Witness for C2: an exact match commits regardless of the fuzzy tiers. -/
theorem c2_exact_tier_commits_witness :
    (resolveIso [⟨"FR", "France", "FRA"⟩] "France" = some "FR" ∧
      exactTier (buildGaz (fun l => l) [⟨"Paris", "FR", "11", 48, 2, 100⟩])
        "FR" (mkAdmin "") "Paris" = some ⟨"Paris", "FR", "11", 48, 2, 100⟩) ∧
      findCoords (fun l => l)
          ⟨(buildGaz (fun l => l) [⟨"Paris", "FR", "11", 48, 2, 100⟩]).idx,
            (buildGaz (fun l => l) [⟨"Paris", "FR", "11", 48, 2, 100⟩]).nidx,
            [], fun _ => none⟩
          (fun _ _ => none) [⟨"FR", "France", "FRA"⟩] "Paris" "" "France"
        = .ok (toString (48 : Int), toString (2 : Int)) :=
  ⟨⟨by decide, by decide⟩,
    c2_exact_tier_commits (fun l => l) [⟨"Paris", "FR", "11", 48, 2, 100⟩]
      [⟨"FR", "France", "FRA"⟩] "Paris" "" "France" "FR"
      ⟨"Paris", "FR", "11", 48, 2, 100⟩ (by decide) (by decide)
      (fun _ _ => none) [] (fun _ => none)⟩

/-- C3 counterexample: a country string that resolves to a code whose
country has no gazetteer city reaches the final guard of `_find_coords`
with no candidate, and the guarded return statement then fails (the source
subscripts `None`) instead of returning coordinates — so the guard is not
unreachable for every input whose country resolves. -/
theorem c3_dead_branch_counterexample :
    resolveIso [⟨"XX", "Xland", "XXX"⟩] "Xland" = some "XX" ∧
      findCoords (fun l => l) (buildGaz (fun l => l) []) (fun _ _ => none)
        [⟨"XX", "Xland", "XXX"⟩] "Anytown" "" "Xland" = .error () := by
  exact ⟨by decide, rfl⟩

/-- C3 amended: the final guard of `_find_coords` is false — and the
function returns a matched city's coordinates — whenever the resolved
country code has an entry in the largest-city table, in particular whenever
at least one gazetteer city carries that code.  The guarded statement is
dead only under that data assumption; for a cityless country it is reached
and fails instead of returning coordinates (see the counterexample). -/
theorem c3_guard_dead_when_country_has_city (nfkd : List Char → List Char)
    (cities : List City) (countries : List CountryRec)
    (cm : List String → String → Option String)
    (city state country iso : String) (L : City)
    (hiso : resolveIso countries country = some iso)
    (hL : buildLargest cities iso = some L) :
    ∃ c : City,
      findCoords nfkd (buildGaz nfkd cities) cm countries city state country
        = .ok (toString c.latitude, toString c.longitude) := by
  cases hct : cityTierResult nfkd (buildGaz nfkd cities) cm iso (mkAdmin state) city with
  | some c => exact ⟨c, by simp only [findCoords, hiso, hct]⟩
  | none =>
    refine ⟨L, ?_⟩
    have hlarge : (buildGaz nfkd cities).largest iso = some L := hL
    simp only [findCoords, hiso, hct, hlarge]

/-- Witness for the amended C3 on a country with one gazetteer city. -/
theorem c3_guard_dead_witness :
    (resolveIso [⟨"XX", "Xland", "XXX"⟩] "Xland" = some "XX" ∧
      buildLargest [⟨"Alpha", "XX", "", 1, 2, 5⟩] "XX"
        = some ⟨"Alpha", "XX", "", 1, 2, 5⟩) ∧
      ∃ c : City,
        findCoords (fun l => l) (buildGaz (fun l => l) [⟨"Alpha", "XX", "", 1, 2, 5⟩])
          (fun _ _ => none) [⟨"XX", "Xland", "XXX"⟩] "Nowhere" "" "Xland"
          = .ok (toString c.latitude, toString c.longitude) :=
  ⟨⟨by decide, by decide⟩,
    c3_guard_dead_when_country_has_city (fun l => l) [⟨"Alpha", "XX", "", 1, 2, 5⟩]
      [⟨"XX", "Xland", "XXX"⟩] (fun _ _ => none) "Nowhere" "" "Xland" "XX"
      ⟨"Alpha", "XX", "", 1, 2, 5⟩ (by decide) (by decide)⟩

/-! ### Characterization of the largest-city table -/

/-- The largest-city fold restricted to a single country: keep the stored
record unless the new city is strictly more populous. -/
def mergeLargest (o : Option City) (c : City) : Option City :=
  match o with
  | none => some c
  | some L => if L.population < c.population then some c else some L

theorem buildLargest_filter (cities : List City) :
    ∀ (acc : String → Option City) (cc : String),
      cities.foldl largestStep acc cc
        = (cities.filter (fun c => decide (c.countrycode = cc))).foldl
            mergeLargest (acc cc) := by
  induction cities with
  | nil => intro acc cc; rfl
  | cons c0 cs ih =>
    intro acc cc
    rw [List.foldl_cons, ih]
    by_cases h : c0.countrycode = cc
    · subst h
      rw [List.filter_cons_of_pos (by simp), List.foldl_cons]
      congr 1
      simp [largestStep, mergeLargest]
    · rw [List.filter_cons_of_neg (by simp [h])]
      congr 1
      simp only [largestStep]
      rw [if_neg (fun hx => h hx.symm)]

theorem foldl_mergeLargest_eq_some (l : List City) :
    ∀ (o : Option City) (L : City),
      l.foldl mergeLargest o = some L ↔
        ((o = some L ∧ ∀ c ∈ l, c.population ≤ L.population) ∨
          (∃ pre post, l = pre ++ L :: post ∧
            (∀ A, o = some A → A.population < L.population) ∧
            (∀ c ∈ pre, c.population < L.population) ∧
            (∀ c ∈ post, c.population ≤ L.population))) := by
  induction l with
  | nil =>
    intro o L
    simp only [List.foldl_nil]
    constructor
    · intro h
      exact Or.inl ⟨h, by simp⟩
    · rintro (⟨h, _⟩ | ⟨pre, post, hdec, _⟩)
      · exact h
      · exact absurd hdec (by simp)
  | cons c0 cs ih =>
    intro o L
    rw [List.foldl_cons, ih]
    cases o with
    | none =>
      show (some c0 = some L ∧ _) ∨ _ ↔ _
      constructor
      · rintro (⟨hc, hle⟩ | ⟨pre, post, hdec, hA, hpre, hpost⟩)
        · injection hc with hc
          subst hc
          exact Or.inr ⟨[], cs, rfl, by simp, by simp, hle⟩
        · refine Or.inr ⟨c0 :: pre, post, by simp [hdec], by simp, ?_, hpost⟩
          intro c hc
          rcases List.mem_cons.mp hc with rfl | hm
          · exact hA _ rfl
          · exact hpre c hm
      · rintro (⟨h, _⟩ | ⟨pre, post, hdec, hA, hpre, hpost⟩)
        · cases h
        · cases pre with
          | nil =>
            simp only [List.nil_append, List.cons.injEq] at hdec
            obtain ⟨rfl, rfl⟩ := hdec
            exact Or.inl ⟨rfl, hpost⟩
          | cons p0 pre' =>
            simp only [List.cons_append, List.cons.injEq] at hdec
            obtain ⟨rfl, hdec'⟩ := hdec
            refine Or.inr ⟨pre', post, hdec', ?_, fun c hc => hpre c (by simp [hc]), hpost⟩
            intro A hA'
            injection hA' with hA'
            subst hA'
            exact hpre c0 (by simp)
    | some A =>
      by_cases hb : A.population < c0.population
      · show (mergeLargest (some A) c0 = some L ∧ _) ∨ _ ↔ _
        rw [show mergeLargest (some A) c0 = some c0 from by simp [mergeLargest, hb]]
        constructor
        · rintro (⟨hc, hle⟩ | ⟨pre, post, hdec, hA, hpre, hpost⟩)
          · injection hc with hc
            subst hc
            refine Or.inr ⟨[], cs, rfl, ?_, by simp, hle⟩
            intro A' hA'
            injection hA' with hA'
            subst hA'
            exact hb
          · have hc0 : c0.population < L.population := hA c0 rfl
            refine Or.inr ⟨c0 :: pre, post, by simp [hdec], ?_, ?_, hpost⟩
            · intro A' hA'
              injection hA' with hA'
              subst hA'
              omega
            · intro c hc
              rcases List.mem_cons.mp hc with rfl | hm
              · exact hc0
              · exact hpre c hm
        · rintro (⟨hc, hle⟩ | ⟨pre, post, hdec, hA, hpre, hpost⟩)
          · injection hc with hc
            subst hc
            have := hle c0 (by simp)
            omega
          · cases pre with
            | nil =>
              simp only [List.nil_append, List.cons.injEq] at hdec
              obtain ⟨rfl, rfl⟩ := hdec
              exact Or.inl ⟨rfl, hpost⟩
            | cons p0 pre' =>
              simp only [List.cons_append, List.cons.injEq] at hdec
              obtain ⟨rfl, hdec'⟩ := hdec
              refine Or.inr ⟨pre', post, hdec', ?_, fun c hc => hpre c (by simp [hc]), hpost⟩
              intro A' hA'
              injection hA' with hA'
              subst hA'
              exact hpre c0 (by simp)
      · show (mergeLargest (some A) c0 = some L ∧ _) ∨ _ ↔ _
        rw [show mergeLargest (some A) c0 = some A from by simp [mergeLargest, hb]]
        constructor
        · rintro (⟨hc, hle⟩ | ⟨pre, post, hdec, hA, hpre, hpost⟩)
          · injection hc with hc
            subst hc
            refine Or.inl ⟨rfl, ?_⟩
            intro c hc
            rcases List.mem_cons.mp hc with rfl | hm
            · omega
            · exact hle c hm
          · have hAL : A.population < L.population := hA A rfl
            refine Or.inr ⟨c0 :: pre, post, by simp [hdec], hA, ?_, hpost⟩
            intro c hc
            rcases List.mem_cons.mp hc with rfl | hm
            · omega
            · exact hpre c hm
        · rintro (⟨hc, hle⟩ | ⟨pre, post, hdec, hA, hpre, hpost⟩)
          · injection hc with hc
            subst hc
            exact Or.inl ⟨rfl, fun c hc => hle c (by simp [hc])⟩
          · cases pre with
            | nil =>
              simp only [List.nil_append, List.cons.injEq] at hdec
              obtain ⟨rfl, rfl⟩ := hdec
              have := hA A rfl
              omega
            | cons p0 pre' =>
              simp only [List.cons_append, List.cons.injEq] at hdec
              obtain ⟨rfl, hdec'⟩ := hdec
              exact Or.inr ⟨pre', post, hdec', hA,
                fun c hc => hpre c (by simp [hc]), hpost⟩

/-- First-seen maximum: in the dataset-order list of the country's cities,
`L` occurs with every earlier city strictly less populous and every later
one no more populous than `L`. -/
def IsLargestFirstSeen (cities : List City) (cc : String) (L : City) : Prop :=
  ∃ pre post,
    cities.filter (fun c => decide (c.countrycode = cc)) = pre ++ L :: post ∧
      (∀ c ∈ pre, c.population < L.population) ∧
      (∀ c ∈ post, c.population ≤ L.population)

theorem buildLargest_iff (cities : List City) (cc : String) (L : City) :
    buildLargest cities cc = some L ↔ IsLargestFirstSeen cities cc L := by
  rw [buildLargest, buildLargest_filter, foldl_mergeLargest_eq_some]
  constructor
  · rintro (⟨h, _⟩ | ⟨pre, post, hdec, _, hpre, hpost⟩)
    · cases h
    · exact ⟨pre, post, hdec, hpre, hpost⟩
  · rintro ⟨pre, post, hdec, hpre, hpost⟩
    exact Or.inr ⟨pre, post, hdec, by simp, hpre, hpost⟩

/-- C5: when the country resolves to a code and no city-level tier (exact,
normalized, substring, or close-string) produced a candidate, the resolver
returns the coordinates of that country's largest city (presupposing, as
the claim's wording does, that the country has a largest city at all — see
C3 for the cityless case), and the largest-city table maps every country
code to its most populous gazetteer city with ties broken by first
occurrence. -/
theorem c5_largest_city_fallback (nfkd : List Char → List Char) (cities : List City)
    (countries : List CountryRec) (cm : List String → String → Option String)
    (city state country iso : String) (L : City)
    (hiso : resolveIso countries country = some iso)
    (hcity : cityTierResult nfkd (buildGaz nfkd cities) cm iso (mkAdmin state) city = none)
    (hL : buildLargest cities iso = some L) :
    findCoords nfkd (buildGaz nfkd cities) cm countries city state country
        = .ok (toString L.latitude, toString L.longitude) ∧
      ∀ (cc : String) (M : City),
        buildLargest cities cc = some M ↔ IsLargestFirstSeen cities cc M := by
  constructor
  · have hlarge : (buildGaz nfkd cities).largest iso = some L := hL
    simp only [findCoords, hiso, hcity, hlarge]
  · intro cc M
    exact buildLargest_iff cities cc M

/-- Witness for C5 on a two-city country where every city tier misses. -/
theorem c5_largest_city_fallback_witness :
    (resolveIso [⟨"XX", "Xland", "XXX"⟩] "Xland" = some "XX" ∧
      cityTierResult (fun l => l)
        (buildGaz (fun l => l)
          [⟨"Alpha", "XX", "A1", 1, 2, 50⟩, ⟨"Beta", "XX", "B1", 3, 4, 100⟩])
        (fun _ _ => none) "XX" (mkAdmin "") "Nowhere" = none ∧
      buildLargest [⟨"Alpha", "XX", "A1", 1, 2, 50⟩, ⟨"Beta", "XX", "B1", 3, 4, 100⟩] "XX"
        = some ⟨"Beta", "XX", "B1", 3, 4, 100⟩) ∧
      (findCoords (fun l => l)
          (buildGaz (fun l => l)
            [⟨"Alpha", "XX", "A1", 1, 2, 50⟩, ⟨"Beta", "XX", "B1", 3, 4, 100⟩])
          (fun _ _ => none) [⟨"XX", "Xland", "XXX"⟩] "Nowhere" "" "Xland"
          = .ok (toString (3 : Int), toString (4 : Int)) ∧
        ∀ (cc : String) (M : City),
          buildLargest [⟨"Alpha", "XX", "A1", 1, 2, 50⟩, ⟨"Beta", "XX", "B1", 3, 4, 100⟩] cc
              = some M ↔
            IsLargestFirstSeen
              [⟨"Alpha", "XX", "A1", 1, 2, 50⟩, ⟨"Beta", "XX", "B1", 3, 4, 100⟩] cc M) :=
  ⟨⟨by decide, by decide, by decide⟩,
    c5_largest_city_fallback (fun l => l)
      [⟨"Alpha", "XX", "A1", 1, 2, 50⟩, ⟨"Beta", "XX", "B1", 3, 4, 100⟩]
      [⟨"XX", "Xland", "XXX"⟩] (fun _ _ => none) "Nowhere" "" "Xland" "XX"
      ⟨"Beta", "XX", "B1", 3, 4, 100⟩ (by decide) (by decide) (by decide)⟩

/-! ### Round trip: export, fill, reconcile -/

theorem pystrip_idem (s : String) : pystrip (pystrip s) = pystrip s :=
  congrArg String.mk (stripLWith_idem s.data)

theorem exportKeys_stripped {rows : List Row} {k : String × String × String}
    (h : k ∈ exportKeys rows) :
    pystrip k.1 = k.1 ∧ pystrip k.2.1 = k.2.1 ∧ pystrip k.2.2 = k.2.2 := by
  rw [exportKeys, List.mem_dedup] at h
  obtain ⟨r, _, rfl⟩ := List.mem_map.mp h
  exact ⟨pystrip_idem _, pystrip_idem _, pystrip_idem _⟩

theorem loadMapping_good (tbl : List Row) :
    ∀ (acc : String × String × String → Option (String × String))
      (k : String × String × String),
      ((∃ r ∈ tbl, rowKey r = k ∧ pystrip r.lat ≠ "" ∧ pystrip r.lon ≠ "") ∨
        (∃ v, acc k = some v ∧ pystrip v.1 ≠ "" ∧ pystrip v.2 ≠ "")) →
      ∃ v, tbl.foldl loadStep acc k = some v ∧
        pystrip v.1 ≠ "" ∧ pystrip v.2 ≠ "" := by
  induction tbl with
  | nil =>
    intro acc k h
    rcases h with ⟨r, hr, _⟩ | hv
    · simp at hr
    · exact hv
  | cons r0 tbl ih =>
    intro acc k h
    rw [List.foldl_cons]
    apply ih
    rcases h with ⟨r, hr, hk, ha, hb⟩ | ⟨v, hv, ha, hb⟩
    · rcases List.mem_cons.mp hr with rfl | hm
      · right
        refine ⟨(pystrip r.lat, pystrip r.lon), ?_, ?_, ?_⟩
        · simp only [loadStep]
          rw [if_pos ⟨ha, hb⟩]
          simp [hk]
        · rw [pystrip_idem]
          exact ha
        · rw [pystrip_idem]
          exact hb
      · exact Or.inl ⟨r, hm, hk, ha, hb⟩
    · right
      by_cases hg : pystrip r0.lat ≠ "" ∧ pystrip r0.lon ≠ ""
      · simp only [loadStep]
        rw [if_pos hg]
        by_cases hkk : k = rowKey r0
        · refine ⟨(pystrip r0.lat, pystrip r0.lon), by simp [hkk], ?_, ?_⟩
          · rw [pystrip_idem]; exact hg.1
          · rw [pystrip_idem]; exact hg.2
        · exact ⟨v, by simp [hkk, hv], ha, hb⟩
      · simp only [loadStep]
        rw [if_neg hg]
        exact ⟨v, hv, ha, hb⟩

/-- C6: exporting the unresolved keys of a dataset, filling every exported
row with non-empty coordinates (non-empty after the loader's trimming), and
reconciling the same dataset against the filled table leaves no row
unresolved — the export's key construction and the reconciler's key lookup
agree.  (Rows whose key was not exported already carried coordinates, so
the conclusion holds for every row.) -/
theorem c6_round_trip (rows : List Row)
    (fill : String × String × String → String × String)
    (hfill : ∀ k ∈ exportKeys rows,
      pystrip (fill k).1 ≠ "" ∧ pystrip (fill k).2 ≠ "") :
    ∀ r ∈ reconcile (loadMapping (filledTable rows fill)) rows,
      pystrip r.lat ≠ "" ∧ pystrip r.lon ≠ "" := by
  intro r hr
  rw [reconcile] at hr
  obtain ⟨r0, hr0, rfl⟩ := List.mem_map.mp hr
  by_cases hres : pystrip r0.lat ≠ "" ∧ pystrip r0.lon ≠ ""
  · simp only [applyRow]
    rw [if_pos hres]
    exact hres
  · have hkey : rowKey r0 ∈ exportKeys rows := by
      rw [exportKeys, List.mem_dedup]
      refine List.mem_map.mpr ⟨r0, ?_, rfl⟩
      rw [List.mem_filter]
      refine ⟨hr0, ?_⟩
      rw [unresolvedB]
      by_cases ha : pystrip r0.lat = "" <;> by_cases hb : pystrip r0.lon = "" <;>
        simp_all
    have hmem : ∃ rr ∈ filledTable rows fill, rowKey rr = rowKey r0 ∧
        pystrip rr.lat ≠ "" ∧ pystrip rr.lon ≠ "" := by
      refine ⟨{ city := (rowKey r0).1, state := (rowKey r0).2.1,
                country := (rowKey r0).2.2,
                lat := (fill (rowKey r0)).1, lon := (fill (rowKey r0)).2 },
              ?_, ?_, (hfill _ hkey).1, (hfill _ hkey).2⟩
      · rw [filledTable]
        exact List.mem_map.mpr ⟨rowKey r0, hkey, rfl⟩
      · simp [rowKey, pystrip_idem]
    obtain ⟨v, hv, hva, hvb⟩ := loadMapping_good (filledTable rows fill)
      (fun _ => none) (rowKey r0) (Or.inl hmem)
    have hv' : loadMapping (filledTable rows fill) (rowKey r0) = some v := hv
    simp only [applyRow]
    rw [if_neg hres, hv']
    exact ⟨hva, hvb⟩

/-- Witness for C6 on a one-row dataset. -/
theorem c6_round_trip_witness :
    (∀ k ∈ exportKeys [⟨"Lisboa", "", "Portugal", "", ""⟩],
      pystrip ((fun _ => ("38.7", "-9.1")) k).1 ≠ "" ∧
        pystrip ((fun _ => ("38.7", "-9.1")) k).2 ≠ "") ∧
      ∀ r ∈ reconcile
          (loadMapping (filledTable [⟨"Lisboa", "", "Portugal", "", ""⟩]
            (fun _ => ("38.7", "-9.1"))))
          [⟨"Lisboa", "", "Portugal", "", ""⟩],
        pystrip r.lat ≠ "" ∧ pystrip r.lon ≠ "" :=
  ⟨by decide,
    c6_round_trip [⟨"Lisboa", "", "Portugal", "", ""⟩] (fun _ => ("38.7", "-9.1"))
      (by decide)⟩

/-- C7 amended: the resolver's `_map_country` applies no fuzzy matching —
whenever it yields a code, the input was not a sentinel and the code arises
from the raw string being a known alpha-2 code, from an exact
case-insensitive name or alpha-3 comparison, or from the fixed alias table.
The auto-fill tool, however, does apply close-string matching to country
strings (see the counterexample), so the claim's "anywhere in the engine"
fails. -/
theorem c7_map_country_exact (countries : List CountryRec) (s code : String)
    (h : mapCountry countries s = some code) :
    sentinelSet.contains (pylower (pystrip s)) = false ∧
      ((countries.any (fun d => d.code == s) = true ∧ code = s) ∨
        (∃ d ∈ countries, code = d.code ∧
          (pylower s = pylower d.name ∨ pyupper s = pyupper d.iso3)) ∨
        dget (pylower (pystrip s)) aliasList = some code) := by
  simp only [mapCountry] at h
  split at h
  · cases h
  · split at h
    · cases h
    · rename_i hsent
      refine ⟨by simpa using hsent, ?_⟩
      split at h
      · rename_i hany
        injection h with h
        exact Or.inl ⟨hany, h.symm⟩
      · split at h
        · rename_i d hfind
          injection h with h
          refine Or.inr (Or.inl ⟨d, List.mem_of_find?_eq_some hfind, h.symm, ?_⟩)
          have hp := List.find?_some hfind
          rcases (by simpa using hp :
              pylower s = pylower d.name ∨ pyupper s = pyupper d.iso3) with h1 | h1
          · exact Or.inl h1
          · exact Or.inr h1
        · exact Or.inr (Or.inr h)

/-- Witness for the amended C7: an alpha-3 match resolved exactly. -/
theorem c7_map_country_exact_witness :
    mapCountry [⟨"US", "United States", "USA"⟩] "usa" = some "US" ∧
      (sentinelSet.contains (pylower (pystrip "usa")) = false ∧
        ((([⟨"US", "United States", "USA"⟩] :
              List CountryRec).any (fun d => d.code == "usa") = true ∧ "US" = "usa") ∨
          (∃ d ∈ ([⟨"US", "United States", "USA"⟩] : List CountryRec),
            "US" = d.code ∧
              (pylower "usa" = pylower d.name ∨ pyupper "usa" = pyupper d.iso3)) ∨
          dget (pylower (pystrip "usa")) aliasList = some "US")) :=
  ⟨by decide, c7_map_country_exact [⟨"US", "United States", "USA"⟩] "usa" "US" (by decide)⟩

set_option maxRecDepth 20000 in
/-- C7 counterexample: the auto-fill tool resolves a misspelled country
string by difflib close matching (cutoff 0.8) although the engine's exact
machinery — sentinels, alpha-2/alpha-3 codes, names, alias table, as
queried by the resolver — does not recognize the string at all.  So
country-string resolution is not exact-only everywhere in the engine. -/
theorem c7_fuzzy_country_counterexample :
    autoFillCC asciiUni [] "Unitd States" = some "US" ∧
      resolveIso [] "Unitd States" = none := by
  exact ⟨by decide, by decide⟩
